import Mathlib

/-!
Verification of the functional-form construction / substitution engine and the
Lagrangian optimization solver of the econ_models repository.

The development shallowly embeds the relevant Python code:

* SymPy expressions are embedded as the inductive type Expr.  The smart
  constructors addS, mulS, powS, divS, negS, subS model the automatic
  arithmetic simplification SymPy performs when an expression is built
  (folding of numeric literals, dropping of 0-summands and 1-factors,
  moving a numeric factor to the front of a product).
* sp.diff is embedded as diffE, sp.solve on an equation that is linear in the
  target symbol as solveLinFor (the only use the modelled code makes of the
  single-equation solver), and the numeric test e.is_number as Expr.isNumber.
* The class BaseForms of econmodels/functional_forms/base.py is embedded as
  the structure BaseForms plus the functions BaseForms_init (the constructor,
  including the negative num_inputs check), BaseForms.symbolDict (the symbol
  registry built in the constructor), sub_symbols, BaseForms.additive and
  BaseForms.multiplicative.  Python dictionaries are embedded as association
  lists, which preserve the insertion order that the Python code relies on.
* sub_symbols mutates the symbol_values dictionary passed by the caller
  (pop / update while iterating over a copy).  The embedding is state passing:
  sub_symbols returns the substituted expression together with the final
  contents of the callers symbol_values dictionary.
* is_linear and lagrangian of econmodels/utils/solvers.py are embedded below.
  The call sp.solve(foc, tuple(vars), dict=True) hands the whole first-order
  condition system to the general symbolic solver of the external SymPy
  library; that external solver is not code of this repository and is
  embedded as the abstract parameter sysSolve of lagrangian, whose outcome
  (a list of solution dictionaries, or the NotImplementedError that SymPy
  raises when no closed form is found) drives the modelled control flow.
* Python exceptions are embedded as the error component of Except PyExn.
-/

namespace EconModels

/-- Embedded SymPy expression: rational literals, scalar symbols, elements of
indexed families (x[i]), sums, products, powers, quotients and logarithms. -/
inductive Expr where
  | num : ℚ → Expr
  | sym : String → Expr
  | idx : String → ℕ → Expr
  | add : Expr → Expr → Expr
  | mul : Expr → Expr → Expr
  | pow : Expr → Expr → Expr
  | div : Expr → Expr → Expr
  | log : Expr → Expr
deriving DecidableEq, Repr

/-- The numeric value of a literal leaf, used by the smart constructors to
decide which automatic simplification applies. -/
def isNum : Expr → Option ℚ
  | .num q => some q
  | _ => none

/-- Embeds the automatic simplification SymPy applies when an addition is
built: numeric literals are folded and a 0 summand is dropped. -/
def addS (a b : Expr) : Expr :=
  match isNum a, isNum b with
  | some p, some q => .num (p + q)
  | some p, none => if p = 0 then b else .add a b
  | none, some q => if q = 0 then a else .add a b
  | none, none => .add a b

/-- Embeds the automatic simplification SymPy applies when a product is
built: numeric literals are folded, 0 and 1 factors are resolved, and a
numeric factor is moved to the front. -/
def mulS (a b : Expr) : Expr :=
  match isNum a, isNum b with
  | some p, some q => .num (p * q)
  | some p, none => if p = 0 then .num 0 else if p = 1 then b else .mul a b
  | none, some q => if q = 0 then .num 0 else if q = 1 then a else .mul (.num q) a
  | none, none => .mul a b

/-- Embeds the automatic simplification SymPy applies when a power is built:
a power of numeric literals with an integer exponent is evaluated, and the
exponents 0 and 1 are resolved. -/
def powS (a b : Expr) : Expr :=
  match isNum a, isNum b with
  | some p, some q =>
      if q.den = 1 then
        (if 0 ≤ q.num then .num (p ^ q.num.toNat) else .num ((p ^ (-q.num).toNat)⁻¹))
      else .pow a b
  | none, some q => if q = 1 then a else if q = 0 then .num 1 else .pow a b
  | _, none => .pow a b

/-- Negation, embedded the way SymPy represents it: multiplication by -1. -/
def negS (e : Expr) : Expr := mulS (.num (-1)) e

/-- Subtraction, embedded the way SymPy represents it: a + (-1) * b. -/
def subS (a b : Expr) : Expr := addS a (negS b)

/-- Embeds the automatic simplification SymPy applies when a quotient is
built: a quotient of numeric literals is evaluated, division by a numeric
literal becomes multiplication by its inverse, and a 0 numerator collapses. -/
def divS (a b : Expr) : Expr :=
  match isNum a, isNum b with
  | some p, some q => .num (p / q)
  | none, some q => if q = 0 then .div a (.num 0) else mulS (.num q⁻¹) a
  | some p, none => if p = 0 then .num 0 else .div a b
  | none, none => .div a b

/-- Whether the symbol v (a sym or idx leaf) occurs free in the expression. -/
def occursE (v : Expr) : Expr → Bool
  | .num _ => false
  | .sym s => v = .sym s
  | .idx b i => v = .idx b i
  | .add a b => occursE v a || occursE v b
  | .mul a b => occursE v a || occursE v b
  | .pow a b => occursE v a || occursE v b
  | .div a b => occursE v a || occursE v b
  | .log a => occursE v a

/-- Embeds the SymPy test e.is_number: the expression contains no symbol. -/
def Expr.isNumber : Expr → Bool
  | .num _ => true
  | .sym _ => false
  | .idx _ _ => false
  | .add a b => a.isNumber && b.isNumber
  | .mul a b => a.isNumber && b.isNumber
  | .pow a b => a.isNumber && b.isNumber
  | .div a b => a.isNumber && b.isNumber
  | .log a => a.isNumber

/-- Rational power with an integer exponent; a non-integer exponent yields the
junk value 0 (no claim evaluates such a power). -/
def qpowE (p q : ℚ) : ℚ :=
  if q.den = 1 then (if 0 ≤ q.num then p ^ q.num.toNat else (p ^ (-q.num).toNat)⁻¹) else 0

/-- Evaluation of an embedded expression under an assignment of the scalar
symbols and of the indexed-family elements.  Logarithms evaluate to the junk
value 0; no claim evaluates an expression containing one. -/
def evalE (σ : String → ℚ) (ξ : String → ℕ → ℚ) : Expr → ℚ
  | .num q => q
  | .sym s => σ s
  | .idx b i => ξ b i
  | .add a b => evalE σ ξ a + evalE σ ξ b
  | .mul a b => evalE σ ξ a * evalE σ ξ b
  | .pow a b => qpowE (evalE σ ξ a) (evalE σ ξ b)
  | .div a b => evalE σ ξ a / evalE σ ξ b
  | .log _ => 0

/-- Numeric value of an expression that satisfies Expr.isNumber (evaluation
under the all-zero assignment); used to embed the Python comparison of
numeric SymPy values. -/
def numVal (e : Expr) : ℚ := evalE (fun _ => 0) (fun _ _ => 0) e

/-- Embeds sp.diff(e, v) for a symbol v, rebuilding with the smart
constructors exactly as SymPy evaluates the derivative it constructs. -/
def diffE (e v : Expr) : Expr :=
  match e with
  | .num _ => .num 0
  | .sym s => if v = .sym s then .num 1 else .num 0
  | .idx b i => if v = .idx b i then .num 1 else .num 0
  | .add a b => addS (diffE a v) (diffE b v)
  | .mul a b => addS (mulS (diffE a v) b) (mulS a (diffE b v))
  | .pow a b =>
      if occursE v b then
        mulS (powS a b) (addS (mulS (diffE b v) (.log a)) (divS (mulS b (diffE a v)) a))
      else
        mulS (mulS b (powS a (subS b (.num 1)))) (diffE a v)
  | .div a b => divS (subS (mulS (diffE a v) b) (mulS a (diffE b v))) (powS b (.num 2))
  | .log a => divS (diffE a v) a

/-- Decomposition of an expression that is linear in the symbol v into
(constant part, coefficient of v); none when the expression is not
syntactically linear in v. -/
def linParts (v : Expr) : Expr → Option (Expr × Expr)
  | .num q => some (.num q, .num 0)
  | .sym s => if v = .sym s then some (.num 0, .num 1) else some (.sym s, .num 0)
  | .idx b i => if v = .idx b i then some (.num 0, .num 1) else some (.idx b i, .num 0)
  | .add a b => do
      let pa ← linParts v a
      let pb ← linParts v b
      some (addS pa.1 pb.1, addS pa.2 pb.2)
  | .mul a b =>
      if occursE v a = false then do
        let pb ← linParts v b
        some (mulS a pb.1, mulS a pb.2)
      else if occursE v b = false then do
        let pa ← linParts v a
        some (mulS pa.1 b, mulS pa.2 b)
      else none
  | .div a b =>
      if occursE v b = false then do
        let pa ← linParts v a
        some (divS pa.1 b, divS pa.2 b)
      else none
  | .pow a b =>
      if occursE v a || occursE v b then none else some (.pow a b, .num 0)
  | .log a => if occursE v a then none else some (.log a, .num 0)

/-- Embeds sp.solve(Eq(e, 0), v) for an equation linear in v: the singleton
list [-a/b] when e = a + b*v with b not the literal 0, and the empty list
when v does not occur (SymPy finds no solution).  The modelled code only
applies the single-equation solver to equations linear in the target. -/
def solveLinFor (e v : Expr) : List Expr :=
  match linParts v e with
  | some (a, b) => if b = .num 0 then [] else [divS (negS a) b]
  | none => []

/-- Embedded Python exception, distinguishing the exception classes the
modelled code raises or propagates. -/
inductive PyExn where
  | exception (msg : String)
  | attributeError (msg : String)
  | typeError (msg : String)
  | indexError
  | valueError
deriving DecidableEq, Repr

/-- Whether an embedded exception is an AttributeError. -/
def PyExn.isAttributeError : PyExn → Bool
  | .attributeError _ => true
  | _ => false

instance {ε α : Type} [DecidableEq ε] [DecidableEq α] : DecidableEq (Except ε α) :=
  fun a b =>
    match a, b with
    | .error e, .error f => decidable_of_iff (e = f) (by simp)
    | .ok x, .ok y => decidable_of_iff (x = y) (by simp)
    | .error _, .ok _ => isFalse (by simp)
    | .ok _, .error _ => isFalse (by simp)

/-- Kind of an entry of the symbol registry: a plain Symbol, an IndexedBase,
or the Idx index variable (sp.symbols with cls=sp.Idx). -/
inductive SymKind where
  | scalar
  | indexedBase
  | indexVar
deriving DecidableEq, Repr

/-- A live symbol object of the registry, identified by its kind and its
display name, mirroring how SymPy symbols compare by type and name. -/
structure SymKey where
  kind : SymKind
  name : String
deriving DecidableEq, Repr

/-- Element of a Python tuple used as a substitution directive: a number,
None, a string (the per-position sentinel is the singular string symbol), or
a SymPy expression produced while the directive is normalized. -/
inductive TupItem where
  | tnum (q : ℚ)
  | tnone
  | tstr (s : String)
  | texpr (e : Expr)
deriving DecidableEq, Repr

/-- A Python value used as a substitution directive: a string (the plural
string symbols is the leave-symbolic directive), None, a number, or a
tuple. -/
inductive PyVal where
  | pstr (s : String)
  | pnone
  | pnum (q : ℚ)
  | ptup (items : List TupItem)
deriving DecidableEq, Repr

/-- Attribute record of the class BaseForms, as set by its constructor. -/
structure BaseForms where
  num_inputs : ℕ
  input_name : String := "x"
  coeff_name : String := "beta"
  coeff_values : PyVal := .pstr "symbols"
  exponent_name : String := "alpha"
  exponent_values : PyVal := .pstr "symbols"
  dependent_name : String := "Y"
  dependent_value : PyVal := .pstr "symbols"
  constant_name : String := "C"
  constant_value : PyVal := .pstr "symbols"
deriving DecidableEq, Repr

/-- The symbol registry self.symbol_dict built by the BaseForms constructor,
embedded as an association list from role name to symbol object. -/
def BaseForms.symbolDict (f : BaseForms) : List (String × SymKey) :=
  [("constant", ⟨.scalar, f.constant_name⟩),
   ("dependent", ⟨.scalar, f.dependent_name⟩),
   ("i", ⟨.indexVar, "i"⟩),
   ("coefficient", ⟨.indexedBase, f.coeff_name⟩),
   ("exponent", ⟨.indexedBase, f.exponent_name⟩),
   ("inputs", ⟨.indexedBase, f.input_name⟩)]

/-- Embeds BaseForms.__init__: a negative num_inputs raises Exception,
otherwise the attribute record is built.  The parameters follow the
signature of the source, with its default values. -/
def BaseForms_init (num_inputs : ℤ := 2) (input_name : String := "x")
    (coeff_name : String := "beta") (coeff_values : PyVal := .pstr "symbols")
    (exponent_name : String := "alpha") (exponent_values : PyVal := .pstr "symbols")
    (dependent_name : String := "Y") (dependent_value : PyVal := .pstr "symbols")
    (constant_name : String := "C") (constant_value : PyVal := .pstr "symbols") :
    Except PyExn BaseForms :=
  if num_inputs < 0 then .error (.exception "Negative inputs passed.")
  else .ok { num_inputs := num_inputs.toNat, input_name, coeff_name, coeff_values,
             exponent_name, exponent_values, dependent_name, dependent_value,
             constant_name, constant_value }

/-- One step of the directive-normalization loop of sub_symbols, acting on a
single (symbol, value) pair: the plural string symbols pops the pair, None is
replaced by a tuple of ones for an IndexedBase and by 1 for a Symbol (the Idx
entry matches neither exact type test and is left as is), a tuple containing
None gets its None positions replaced by 1, and otherwise a tuple containing
the singular string symbol gets those positions replaced by the indexed
symbol for that position. -/
def finalizeItem (n : ℕ) (k : SymKey) (v : PyVal) : Option (SymKey × PyVal) :=
  if v = .pstr "symbols" then none
  else if v = .pnone then
    match k.kind with
    | .indexedBase => some (k, .ptup (List.replicate n (.tnum 1)))
    | .scalar => some (k, .pnum 1)
    | .indexVar => some (k, v)
  else
    match v with
    | .ptup items =>
        if items.contains .tnone then
          some (k, .ptup (items.map (fun it => if it = .tnone then .tnum 1 else it)))
        else if items.contains (.tstr "symbol") then
          some (k, .ptup (items.mapIdx (fun i it =>
            if it = .tstr "symbol" then .texpr (.idx k.name i) else it)))
        else some (k, v)
    | _ => some (k, v)

/-- The directive-normalization loop of sub_symbols.  The Python loop
iterates over a copy while popping and updating the original dictionary in
place; the embedding computes the final contents of that dictionary. -/
def finalizeValues (n : ℕ) (sv : List (SymKey × PyVal)) : List (SymKey × PyVal) :=
  sv.filterMap (fun kv => finalizeItem n kv.1 kv.2)

/-- Lookup of the directive attached to a symbol in the normalized
dictionary. -/
def lookupVal (fin : List (SymKey × PyVal)) (k : SymKey) : Option PyVal :=
  (fin.find? (fun kv => kv.1 = k)).map (fun kv => kv.2)

/-- Embeds func.subs(symbol_values) on the normalized dictionary, rebuilding
the expression with the automatic SymPy simplifications.  A string value is
sympified into a symbol of that name (this is how the singular directive
string symbol, which the normalization does not recognize, reaches the
substitution).  Substituting a tuple into a plain Symbol raises
AttributeError and substituting a plain number into an IndexedBase raises
TypeError, the failure modes exercised by test_base.py; indexing a tuple out
of range raises IndexError. -/
def pysubs (fin : List (SymKey × PyVal)) : Expr → Except PyExn Expr
  | .num q => pure (.num q)
  | .sym s =>
      match lookupVal fin ⟨.scalar, s⟩ with
      | some (.pnum q) => pure (.num q)
      | some (.pstr t) => pure (.sym t)
      | some (.ptup _) => .error (.attributeError "tuple substituted for a scalar symbol")
      | some .pnone => pure (.sym s)
      | none => pure (.sym s)
  | .idx b i =>
      match lookupVal fin ⟨.indexedBase, b⟩ with
      | some (.ptup items) =>
          match items.get? i with
          | some (.tnum q) => pure (.num q)
          | some (.texpr e) => pure e
          | some (.tstr s) => pure (.sym s)
          | some .tnone => pure (.num 1)
          | none => .error .indexError
      | some (.pnum _) => .error (.typeError "scalar substituted for an indexed family")
      | some (.pstr t) => pure (.idx t i)
      | some .pnone => pure (.idx b i)
      | none => pure (.idx b i)
  | .add a b => do pure (addS (← pysubs fin a) (← pysubs fin b))
  | .mul a b => do pure (mulS (← pysubs fin a) (← pysubs fin b))
  | .pow a b => do pure (powS (← pysubs fin a) (← pysubs fin b))
  | .div a b => do pure (divS (← pysubs fin a) (← pysubs fin b))
  | .log a => do pure (.log (← pysubs fin a))

/-- Embeds BaseForms.sub_symbols.  The keys of symbol_values are first
validated against the registry (raising Exception when one is missing,
before any substitution happens), then the directives are normalized in
place, then func.subs is applied.  The returned pair is the substituted
expression together with the final contents of the callers symbol_values
dictionary, which the Python code has mutated in place. -/
def sub_symbols (self : BaseForms) (func : Expr) (symbol_values : List (SymKey × PyVal))
    (symbol_dict : Option (List (String × SymKey)) := none) :
    Except PyExn (Expr × List (SymKey × PyVal)) := do
  let sd := symbol_dict.getD self.symbolDict
  if (symbol_values.all (fun kv => sd.any (fun r => r.2 = kv.1))) = false then
    .error (.exception "Some symbols missing from symbol_dict.")
  else
    let fin := finalizeValues self.num_inputs symbol_values
    let res ← pysubs fin func
    pure (res, fin)

/-- The term coefficient[i] * inputs[i] ** exponent[i] shared by the additive
and multiplicative forms. -/
def inputTerm (f : BaseForms) (i : ℕ) : Expr :=
  mulS (.idx f.coeff_name i) (powS (.idx f.input_name i) (.idx f.exponent_name i))

/-- The directive dictionary the additive and multiplicative constructors
pass to sub_symbols: coefficient, exponent, constant, dependent. -/
def roleValues (f : BaseForms) : List (SymKey × PyVal) :=
  [(⟨.indexedBase, f.coeff_name⟩, f.coeff_values),
   (⟨.indexedBase, f.exponent_name⟩, f.exponent_values),
   (⟨.scalar, f.constant_name⟩, f.constant_value),
   (⟨.scalar, f.dependent_name⟩, f.dependent_value)]

/-- Embeds BaseForms.additive: Sum(coefficient[i] * inputs[i]**exponent[i],
(i, 0, num_inputs - 1)).doit() + constant - dependent, followed by
sub_symbols with the configured directives.  The evaluated empty sum is 0. -/
def BaseForms.additive (f : BaseForms) :
    Except PyExn (Expr × List (String × SymKey)) := do
  let sumv := (List.range f.num_inputs).foldl (fun acc i => addS acc (inputTerm f i)) (.num 0)
  let func_form := subS (addS sumv (.sym f.constant_name)) (.sym f.dependent_name)
  let r ← sub_symbols f func_form (roleValues f)
  pure (r.1, f.symbolDict)

/-- Embeds BaseForms.multiplicative: Product(coefficient[i] *
inputs[i]**exponent[i], (i, 0, num_inputs - 1)).doit() + constant -
dependent, followed by sub_symbols with the configured directives.  The
evaluated empty product is 1. -/
def BaseForms.multiplicative (f : BaseForms) :
    Except PyExn (Expr × List (String × SymKey)) := do
  let prodv := (List.range f.num_inputs).foldl (fun acc i => mulS acc (inputTerm f i)) (.num 1)
  let func_form := subS (addS prodv (.sym f.constant_name)) (.sym f.dependent_name)
  let r ← sub_symbols f func_form (roleValues f)
  pure (r.1, f.symbolDict)

/-- The methods the class BaseForms of econmodels/functional_forms/base.py
defines (transcribed from the class body); attribute lookup on an
Input_Constraint instance falls back to this list. -/
def BaseForms.attrs : List String :=
  ["sub_symbols", "additive", "multiplicative", "minimum_function", "ces", "quasi_linear"]

/-- The attributes available on an Input_Constraint instance: the class
defines only __init__ itself and otherwise inherits from BaseForms. -/
def Input_Constraint.attrs : List String := BaseForms.attrs

/-- Embeds Input_Constraint.__init__ of
econmodels/functional_forms/constraint.py: the parent constructor runs
first (raising Exception on a negative num_inputs), then the initializer
looks up self.polynomial_combination.  No class in the hierarchy defines
that attribute, so when the lookup is reached it raises AttributeError; the
branch that would call the method is dead code. -/
def Input_Constraint_init (num_inputs : ℤ := 2) (input_name : String := "x")
    (coeff_name : String := "gamma") (coeff_values : PyVal := .pstr "symbol")
    (exponent_name : String := "rho") (exponent_values : PyVal := .pstr "symbol")
    (dependent_name : String := "M") (dependent_value : PyVal := .pstr "symbol")
    (constant_name : String := "C") (constant_value : PyVal := .pstr "symbol") :
    Except PyExn Unit := do
  let _self ← BaseForms_init num_inputs input_name coeff_name coeff_values
      exponent_name exponent_values dependent_name dependent_value
      constant_name constant_value
  if "polynomial_combination" ∈ Input_Constraint.attrs then
    pure ()
  else
    .error (.attributeError "polynomial_combination")

/-- A functional-form object as consumed by the solver: a BaseForms attribute
record together with the self.function expression the subclass constructors
store. -/
structure Form extends BaseForms where
  function : Expr
deriving DecidableEq, Repr

/-- Builds a Form whose function is the additive combination, the way the
subclasses of BaseForms store the constructed expression on self. -/
def mkFormAdditive (b : BaseForms) : Except PyExn Form := do
  let r ← b.additive
  pure { toBaseForms := b, function := r.1 }

/-- Builds a Form whose function is the multiplicative combination, the way
the subclasses of BaseForms store the constructed expression on self. -/
def mkFormMultiplicative (b : BaseForms) : Except PyExn Form := do
  let r ← b.multiplicative
  pure { toBaseForms := b, function := r.1 }

/-- Embeds is_linear of econmodels/utils/solvers.py: for every ordered pair
(p, c) of input symbols the flag diff(diff(function, p), c) == 0 is
collected, and with quasi=False the function is linear when all collected
flags are true; with quasi=True it is quasi-linear when both a true and a
false flag were collected. -/
def is_linear (func : Form) (quasi : Bool := false) : Bool :=
  let vars := (List.range func.num_inputs).map (fun i => Expr.idx func.input_name i)
  let linear_vars :=
    vars.flatMap (fun p => vars.map (fun c => diffE (diffE func.function p) c == Expr.num 0))
  if quasi = false then linear_vars.all (fun b => b)
  else linear_vars.contains true && linear_vars.contains false

/-- The value stored for one input in the optimal-allocation dictionary:
either a plain expression, or the two-branch Piecewise the piecewise branch
of the linear case builds, Piecewise((branch, upd >= Max(others)), (0,
True)). -/
inductive AllocValue where
  | expr (e : Expr)
  | piecewiseGeMax (branch : Expr) (upd : Expr) (others : List Expr)
deriving DecidableEq, Repr

/-- Outcome of the external SymPy system solver sp.solve(foc, tuple(vars),
dict=True): a list of solution dictionaries, or the NotImplementedError
SymPy raises when it cannot produce a closed form. -/
inductive SysOutcome where
  | sols (ds : List (List (Expr × AllocValue)))
  | notImplemented (msg : String)
deriving DecidableEq, Repr

/-- The Lagrange multiplier symbol sp.symbols("lambda", real=True,
nonnegative=True). -/
def lambdaSym : Expr := .sym "lambda"

/-- The variable list of lagrangian: the input symbols of the objective
followed by the multiplier. -/
def lagrangeVars (objective : Form) : List Expr :=
  ((List.range objective.num_inputs).map (fun i => Expr.idx objective.input_name i)) ++ [lambdaSym]

/-- The Lagrangian expression L = o - lambda * constraint.function, where o
is the objective solved for its dependent variable. -/
def lagrangianL (o : Expr) (constraint : Form) : Expr :=
  subS o (mulS lambdaSym constraint.function)

/-- The utility-per-dollar dictionary u_p_d of the linear branch: for each
variable, sp.solve(foc[var], lambda) is taken and the variable is recorded
exactly when that solver returns a single solution. -/
def updList (o : Expr) (objective constraint : Form) : List (Expr × Expr) :=
  (lagrangeVars objective).filterMap (fun v =>
    match solveLinFor (diffE (lagrangianL o constraint) v) lambdaSym with
    | [e] => some (v, e)
    | _ => none)

/-- Embeds max(u_p_d, key=u_p_d.get) on the numeric dictionary: the entries
are scanned in insertion order and the current maximum is replaced only by a
strictly greater value, so the first maximal entry wins. -/
def maxByVal : List (Expr × Expr) → Option (Expr × Expr)
  | [] => none
  | p :: rest =>
      some (rest.foldl (fun best q => if numVal best.2 < numVal q.2 then q else best) p)

/-- The numerator used for the winning input of the numeric corner case: the
dependent symbol of the constraint when its directive is the string symbols,
otherwise the directive value itself (a number stays a number, any other
string is sympified into a symbol, and dividing None or a tuple by a symbol
raises TypeError). -/
def dependentNumerator (constraint : Form) : Except PyExn Expr :=
  if constraint.dependent_value = .pstr "symbols" then pure (.sym constraint.dependent_name)
  else
    match constraint.dependent_value with
    | .pnum q => pure (.num q)
    | .pstr s => pure (.sym s)
    | _ => .error (.typeError "unsupported operand type for division")

/-- Message printed by the numeric corner case of the linear branch. -/
def linearNumericMsg : String :=
  "Return the demand for the good with the highest utility per dollar and zero for the other goods."

/-- Message printed by the piecewise corner case of the linear branch. -/
def linearPiecewiseMsg : String :=
  "Return a piecewise function with the conditions for choosing each good."

/-- Message printed when the external system solver raises
NotImplementedError. -/
def tooComplexMsg : String :=
  "The solution is too complex for a general symbolic solver. Try making the problem simplier by replacing symbols, especialliy exponents with numeric values."

/-- Embeds lagrangian of econmodels/utils/solvers.py.  The external SymPy
system solver used in the non-linear branch is the parameter sysSolve.  The
result carries the returned allocation dictionary (none when the Python
function falls off the end after catching NotImplementedError and returns
None) together with the list of printed messages; exceptions the Python
code raises or lets propagate appear as the error case. -/
def lagrangian (sysSolve : List (Expr × Expr) → List Expr → SysOutcome)
    (objective constraint : Form) :
    Except PyExn (Option (List (Expr × AllocValue)) × List String) := do
  let vars := lagrangeVars objective
  let o ← match solveLinFor objective.function (.sym objective.dependent_name) with
          | [] => .error PyExn.indexError
          | e :: _ => pure e
  let L := lagrangianL o constraint
  let foc := vars.map (fun v => (v, diffE L v))
  if is_linear objective then
    let u_p_d := updList o objective constraint
    if u_p_d.all (fun p => p.2.isNumber) then
      match maxByVal u_p_d with
      | none => .error PyExn.valueError
      | some m => do
          let numer ← dependentNumerator constraint
          let opt := u_p_d.map (fun p =>
            (p.1, if p.1 = m.1 then AllocValue.expr (divS numer p.1)
                  else AllocValue.expr (.num 0)))
          pure (some opt, [linearNumericMsg])
    else
      let opt := u_p_d.map (fun p =>
        (p.1, AllocValue.piecewiseGeMax (divS (.sym constraint.dependent_name) p.1)
                p.2 (u_p_d.map (fun q => q.2))))
      pure (some opt, [linearPiecewiseMsg])
  else
    match sysSolve foc vars with
    | .notImplemented msg => pure (none, [msg, tooComplexMsg])
    | .sols [] => .error PyExn.indexError
    | .sols (d :: _) => pure (some d, [])

/-! ### Structural lemmas about the smart constructors -/

lemma isNum_eq_some {e : Expr} {q : ℚ} (h : isNum e = some q) : e = .num q := by
  cases e <;> simp [isNum] at h <;> simp [h]

lemma isNum_num (q : ℚ) : isNum (.num q) = some q := rfl

lemma addS_zero_left (e : Expr) : addS (.num 0) e = e := by
  cases hb : isNum e with
  | none => simp [addS, isNum_num, hb]
  | some q => rw [isNum_eq_some hb]; simp [addS, isNum_num]

lemma addS_zero_right (e : Expr) : addS e (.num 0) = e := by
  cases ha : isNum e with
  | none => simp [addS, isNum_num, ha]
  | some q => rw [isNum_eq_some ha]; simp [addS, isNum_num]

lemma mulS_zero_left (e : Expr) : mulS (.num 0) e = .num 0 := by
  cases hb : isNum e with
  | none => simp [mulS, isNum_num, hb]
  | some q => rw [isNum_eq_some hb]; simp [mulS, isNum_num]

lemma mulS_zero_right (e : Expr) : mulS e (.num 0) = .num 0 := by
  cases ha : isNum e with
  | none => simp [mulS, isNum_num, ha]
  | some q => rw [isNum_eq_some ha]; simp [mulS, isNum_num]

lemma mulS_one_left (e : Expr) : mulS (.num 1) e = e := by
  cases hb : isNum e with
  | none => simp [mulS, isNum_num, hb]
  | some q => rw [isNum_eq_some hb]; simp [mulS, isNum_num]

lemma divS_zero_left (e : Expr) : divS (.num 0) e = .num 0 := by
  cases hb : isNum e with
  | none => simp [divS, isNum_num, hb]
  | some q => rw [isNum_eq_some hb]; simp [divS, isNum_num]

lemma mulS_one_right (e : Expr) : mulS e (.num 1) = e := by
  cases ha : isNum e with
  | none => simp [mulS, isNum_num, ha]
  | some q => rw [isNum_eq_some ha]; simp [mulS, isNum_num]

/-- A numeric factor multiplies the same on either side, since the smart
constructor moves it to the front like SymPy does. -/
lemma mulS_num_comm (e : Expr) (q : ℚ) : mulS e (.num q) = mulS (.num q) e := by
  cases ha : isNum e with
  | none => simp [mulS, isNum_num, ha]
  | some p => rw [isNum_eq_some ha]; simp [mulS, isNum_num, mul_comm]

lemma diffE_addS (a b v : Expr) :
    diffE (addS a b) v = addS (diffE a v) (diffE b v) := by
  cases ha : isNum a with
  | some p =>
      rw [isNum_eq_some ha]
      cases hb : isNum b with
      | some q =>
          rw [isNum_eq_some hb]
          simp [addS, isNum_num, diffE]
      | none =>
          by_cases hp : p = 0
          · subst hp
            rw [addS_zero_left]
            simp only [diffE]
            rw [addS_zero_left]
          · have hu : addS (.num p) b = .add (.num p) b := by
              unfold addS; rw [isNum_num, hb]; simp [hp]
            rw [hu]
            simp only [diffE]
  | none =>
      cases hb : isNum b with
      | some q =>
          rw [isNum_eq_some hb]
          by_cases hq : q = 0
          · subst hq
            rw [addS_zero_right]
            simp only [diffE]
            rw [addS_zero_right]
          · have hu : addS a (.num q) = .add a (.num q) := by
              unfold addS; rw [isNum_num, ha]; simp [hq]
            rw [hu]
            simp only [diffE]
      | none =>
          have hu : addS a b = .add a b := by unfold addS; rw [ha, hb]
          rw [hu]
          simp only [diffE]

lemma diffE_mulS (a b v : Expr) :
    diffE (mulS a b) v = addS (mulS (diffE a v) b) (mulS a (diffE b v)) := by
  cases ha : isNum a with
  | some p =>
      rw [isNum_eq_some ha]
      cases hb : isNum b with
      | some q =>
          rw [isNum_eq_some hb]
          simp [mulS, isNum_num, diffE, addS, mulS_zero_left, mulS_zero_right]
      | none =>
          by_cases hp0 : p = 0
          · subst hp0
            rw [mulS_zero_left]
            simp only [diffE]
            rw [mulS_zero_left, mulS_zero_left, addS_zero_left]
          · by_cases hp1 : p = 1
            · subst hp1
              rw [mulS_one_left]
              simp only [diffE]
              rw [mulS_zero_left, mulS_one_left, addS_zero_left]
            · have hu : mulS (.num p) b = .mul (.num p) b := by
                unfold mulS; rw [isNum_num, hb]; simp [hp0, hp1]
              rw [hu]
              simp only [diffE]
  | none =>
      cases hb : isNum b with
      | some q =>
          rw [isNum_eq_some hb]
          by_cases hq0 : q = 0
          · subst hq0
            rw [mulS_zero_right]
            simp only [diffE]
            rw [mulS_zero_right, mulS_zero_right, addS_zero_right]
          · by_cases hq1 : q = 1
            · subst hq1
              rw [mulS_one_right]
              simp only [diffE]
              rw [mulS_zero_right, mulS_one_right, addS_zero_right]
            · have hu : mulS a (.num q) = .mul (.num q) a := by
                unfold mulS; rw [ha, isNum_num]; simp [hq0, hq1]
              rw [hu]
              simp only [diffE]
              rw [mulS_zero_left, addS_zero_left, mulS_zero_right, addS_zero_right,
                mulS_num_comm]
      | none =>
          have hu : mulS a b = .mul a b := by unfold mulS; rw [ha, hb]
          rw [hu]
          simp only [diffE]

lemma occursE_addS_false {v a b : Expr} (ha : occursE v a = false)
    (hb : occursE v b = false) : occursE v (addS a b) = false := by
  unfold addS
  cases isNum a <;> cases isNum b <;> dsimp only <;> (try split_ifs) <;>
    simp_all [occursE]

lemma occursE_mulS_false {v a b : Expr} (ha : occursE v a = false)
    (hb : occursE v b = false) : occursE v (mulS a b) = false := by
  unfold mulS
  cases isNum a <;> cases isNum b <;> dsimp only <;> (try split_ifs) <;>
    simp_all [occursE]

lemma occursE_powS_false {v a b : Expr} (ha : occursE v a = false)
    (hb : occursE v b = false) : occursE v (powS a b) = false := by
  unfold powS
  cases isNum a <;> cases isNum b <;> dsimp only <;> (try split_ifs) <;>
    simp_all [occursE]

lemma occursE_divS_false {v a b : Expr} (ha : occursE v a = false)
    (hb : occursE v b = false) : occursE v (divS a b) = false := by
  unfold divS
  cases isNum a <;> cases isNum b <;> dsimp only <;> (try split_ifs) <;>
    simp_all [occursE, occursE_mulS_false]

/-- An expression in which the symbol does not occur has derivative 0, like
in SymPy. -/
lemma diffE_of_not_occurs {v : Expr} :
    ∀ {e : Expr}, occursE v e = false → diffE e v = .num 0 := by
  intro e
  induction e with
  | num q => intro _; rfl
  | sym s => intro h; simp [occursE] at h; simp [diffE, h]
  | idx b i => intro h; simp [occursE] at h; simp [diffE, h]
  | add a b iha ihb =>
      intro h
      simp [occursE] at h
      simp [diffE, iha h.1, ihb h.2, addS_zero_left]
  | mul a b iha ihb =>
      intro h
      simp [occursE] at h
      simp [diffE, iha h.1, ihb h.2, mulS_zero_left, mulS_zero_right, addS_zero_left]
  | pow a b iha ihb =>
      intro h
      simp [occursE] at h
      simp [diffE, h.2, iha h.1, mulS_zero_right]
  | div a b iha ihb =>
      intro h
      simp [occursE] at h
      simp [diffE, iha h.1, ihb h.2, mulS_zero_left, mulS_zero_right, subS, negS,
        addS_zero_left, divS_zero_left]
  | log a iha =>
      intro h
      simp [occursE] at h
      simp [diffE, iha h, divS_zero_left]

/-- The linear decomposition of an expression in which the symbol does not
occur always succeeds, with coefficient 0. -/
lemma linParts_of_not_occurs {v : Expr} :
    ∀ {e : Expr}, occursE v e = false → ∃ a, linParts v e = some (a, .num 0) := by
  intro e
  induction e with
  | num q => intro _; exact ⟨.num q, rfl⟩
  | sym s => intro h; simp [occursE] at h; exact ⟨.sym s, by simp [linParts, h]⟩
  | idx b i => intro h; simp [occursE] at h; exact ⟨.idx b i, by simp [linParts, h]⟩
  | add a b iha ihb =>
      intro h
      simp [occursE] at h
      obtain ⟨a0, ha0⟩ := iha h.1
      obtain ⟨b0, hb0⟩ := ihb h.2
      exact ⟨addS a0 b0, by simp [linParts, ha0, hb0, addS_zero_left]⟩
  | mul a b iha ihb =>
      intro h
      simp [occursE] at h
      obtain ⟨b0, hb0⟩ := ihb h.2
      exact ⟨mulS a b0, by simp [linParts, h.1, hb0, mulS_zero_right]⟩
  | pow a b iha ihb =>
      intro h
      simp [occursE] at h
      exact ⟨.pow a b, by simp [linParts, h.1, h.2]⟩
  | div a b iha ihb =>
      intro h
      simp [occursE] at h
      obtain ⟨a0, ha0⟩ := iha h.1
      exact ⟨divS a0 b, by simp [linParts, h.2, ha0, divS_zero_left]⟩
  | log a iha =>
      intro h
      simp [occursE] at h
      exact ⟨.log a, by simp [linParts, h]⟩

/-- SymPy finds no solution for a symbol that does not occur in the
equation. -/
lemma solveLinFor_of_not_occurs {v e : Expr} (h : occursE v e = false) :
    solveLinFor e v = [] := by
  obtain ⟨a, ha⟩ := linParts_of_not_occurs h
  simp [solveLinFor, ha]

/-! ### Lemmas about the Lagrangian solver -/

/-- The derivative of the Lagrangian with respect to the multiplier is the
negated constraint, provided the multiplier name is not reused by the
objective or the constraint. -/
lemma diffE_lagrangianL_lambda {o : Expr} {con : Form}
    (ho : occursE lambdaSym o = false)
    (hB : occursE lambdaSym con.function = false) :
    diffE (lagrangianL o con) lambdaSym = mulS (.num (-1)) con.function := by
  unfold lagrangianL subS negS
  rw [diffE_addS, diffE_mulS, diffE_mulS]
  rw [diffE_of_not_occurs ho, diffE_of_not_occurs hB]
  have hd : diffE lambdaSym lambdaSym = .num 1 := by simp [lambdaSym, diffE]
  have hn : diffE (Expr.num (-1)) lambdaSym = .num 0 := rfl
  rw [hd, hn, mulS_one_left, mulS_zero_right, addS_zero_right, mulS_zero_left,
    addS_zero_left, addS_zero_left]

/-- The first-order condition for the multiplier has no unique solution for
the multiplier: sp.solve of an equation not containing the target returns
the empty list. -/
lemma solveLinFor_lambda_foc {o : Expr} {con : Form}
    (ho : occursE lambdaSym o = false)
    (hB : occursE lambdaSym con.function = false) :
    solveLinFor (diffE (lagrangianL o con) lambdaSym) lambdaSym = [] := by
  rw [diffE_lagrangianL_lambda ho hB]
  exact solveLinFor_of_not_occurs
    (occursE_mulS_false (by simp [occursE]) hB)

/-- Membership in the utility-per-dollar dictionary comes from a variable of
the FOC list whose equation the solver resolved uniquely. -/
lemma updList_mem {o : Expr} {objective constraint : Form} {p : Expr × Expr}
    (h : p ∈ updList o objective constraint) :
    p.1 ∈ lagrangeVars objective ∧
      solveLinFor (diffE (lagrangianL o constraint) p.1) lambdaSym = [p.2] := by
  unfold updList at h
  obtain ⟨v, hv, hs⟩ := List.mem_filterMap.mp h
  rcases hsv : solveLinFor (diffE (lagrangianL o constraint) v) lambdaSym with _ | ⟨e, rest⟩
  · rw [hsv] at hs; exact absurd hs (by simp)
  · rw [hsv] at hs
    cases rest with
    | nil =>
        obtain rfl : (v, e) = p := by simpa using hs
        exact ⟨hv, hsv⟩
    | cons _ _ => exact absurd hs (by simp)

/-- The multiplier is never a key of the utility-per-dollar dictionary,
provided its name is not reused by the objective or the constraint. -/
lemma lambda_not_mem_updList {o : Expr} {objective constraint : Form}
    (ho : occursE lambdaSym o = false)
    (hB : occursE lambdaSym constraint.function = false) :
    lambdaSym ∉ (updList o objective constraint).map Prod.fst := by
  intro hmem
  obtain ⟨p, hp, hfst⟩ := List.mem_map.mp hmem
  obtain ⟨_, hsolve⟩ := updList_mem hp
  rw [hfst] at hsolve
  rw [solveLinFor_lambda_foc ho hB] at hsolve
  exact absurd hsolve (by simp)

/-- The key list of the utility-per-dollar dictionary is a sublist of the
variable list. -/
lemma updList_keys_sublist (o : Expr) (objective constraint : Form) :
    ((updList o objective constraint).map Prod.fst).Sublist (lagrangeVars objective) := by
  unfold updList
  induction lagrangeVars objective with
  | nil => simp
  | cons v t ih =>
      simp only [List.filterMap_cons]
      rcases solveLinFor (diffE (lagrangianL o constraint) v) lambdaSym with _ | ⟨e, rest⟩
      · exact ih.cons v
      · rcases rest with _ | _
        · simpa using ih.cons₂ v
        · exact ih.cons v

/-- The variable list of lagrangian has no duplicates. -/
lemma lagrangeVars_nodup (objective : Form) : (lagrangeVars objective).Nodup := by
  unfold lagrangeVars
  rw [List.nodup_append]
  refine ⟨?_, by simp, ?_⟩
  · exact (List.nodup_range _).map (fun i j h => by
      simpa using congrArg (fun e => match e with | Expr.idx _ k => k | _ => 0) h)
  · intro v hv
    obtain ⟨i, _, rfl⟩ := List.mem_map.mp hv
    simp [lambdaSym]

/-- The key list of the utility-per-dollar dictionary has no duplicates. -/
lemma updList_keys_nodup (o : Expr) (objective constraint : Form) :
    ((updList o objective constraint).map Prod.fst).Nodup :=
  (lagrangeVars_nodup objective).sublist (updList_keys_sublist o objective constraint)

/-- Two entries of an association list with duplicate-free keys and the same
key are the same entry. -/
lemma eq_of_mem_of_nodup_keys {α β : Type} {l : List (α × β)}
    (h : (l.map Prod.fst).Nodup) {p q : α × β}
    (hp : p ∈ l) (hq : q ∈ l) (hfst : p.1 = q.1) : p = q := by
  induction l with
  | nil => cases hp
  | cons a t ih =>
      rw [List.map_cons, List.nodup_cons] at h
      rcases List.mem_cons.mp hp with rfl | hp2
      · rcases List.mem_cons.mp hq with rfl | hq2
        · rfl
        · exact absurd (hfst ▸ List.mem_map_of_mem Prod.fst hq2) h.1
      · rcases List.mem_cons.mp hq with rfl | hq2
        · exact absurd (hfst ▸ List.mem_map_of_mem Prod.fst hp2) h.1
        · exact ih h.2 hp2 hq2

/-- The fold inside the embedded Python max keeps the first entry whose value
strictly dominates every other entry. -/
lemma foldl_max_eq (l : List (Expr × Expr)) :
    ∀ init w : Expr × Expr, (w = init ∨ w ∈ l) →
    (∀ p, (p = init ∨ p ∈ l) → p ≠ w → numVal p.2 < numVal w.2) →
    l.foldl (fun best q => if numVal best.2 < numVal q.2 then q else best) init = w := by
  induction l with
  | nil =>
      intro init w hmem _
      rcases hmem with rfl | h
      · rfl
      · cases h
  | cons q t ih =>
      intro init w hmem hstrict
      simp only [List.foldl_cons]
      set init2 := if numVal init.2 < numVal q.2 then q else init with hinit2
      have hinit2mem : init2 = q ∨ init2 = init := by
        rw [hinit2]; split_ifs <;> simp
      have hstrict2 : ∀ p, (p = init2 ∨ p ∈ t) → p ≠ w → numVal p.2 < numVal w.2 := by
        intro p hp hpw
        rcases hp with rfl | hp
        · rcases hinit2mem with h2 | h2
          · exact hstrict _ (by rw [h2]; simp) hpw
          · exact hstrict _ (by rw [h2]; simp) hpw
        · exact hstrict p (Or.inr (List.mem_cons_of_mem _ hp)) hpw
      have hwmem2 : w = init2 ∨ w ∈ t := by
        by_cases hqw : q = w
        · subst hqw
          by_cases hiq : init = q
          · left; rw [hinit2, hiq]; split_ifs <;> rfl
          · left
            have hlt : numVal init.2 < numVal q.2 := hstrict init (Or.inl rfl) hiq
            rw [hinit2, if_pos hlt]
        · rcases hmem with rfl | hm
          · left
            have hlt : numVal q.2 < numVal w.2 := hstrict q (Or.inr (by simp)) hqw
            rw [hinit2, if_neg (not_lt.mpr (le_of_lt hlt))]
          · rcases List.mem_cons.mp hm with rfl | hmt
            · exact absurd rfl hqw
            · exact Or.inr hmt
      exact ih init2 w hwmem2 hstrict2

/-- The embedded Python max returns the entry whose value strictly dominates
every other entry. -/
lemma maxByVal_eq {l : List (Expr × Expr)} {w : Expr × Expr}
    (hmem : w ∈ l)
    (hstrict : ∀ p ∈ l, p ≠ w → numVal p.2 < numVal w.2) :
    maxByVal l = some w := by
  cases l with
  | nil => cases hmem
  | cons p rest =>
      have hred : maxByVal (p :: rest) =
          some (rest.foldl (fun best q => if numVal best.2 < numVal q.2 then q else best) p) :=
        rfl
      rw [hred]
      refine congrArg some (foldl_max_eq rest p w ?_ ?_)
      · rcases List.mem_cons.mp hmem with rfl | h
        · exact Or.inl rfl
        · exact Or.inr h
      · intro q hq hqw
        refine hstrict q ?_ hqw
        rcases hq with rfl | hq
        · simp
        · simp [hq]

/-- A non-empty dictionary always yields a maximum. -/
lemma maxByVal_isSome {l : List (Expr × Expr)} (h : l ≠ []) :
    ∃ m, maxByVal l = some m := by
  cases l with
  | nil => exact absurd rfl h
  | cons p rest => exact ⟨_, rfl⟩

/-! ### Lemmas about the substitution engine -/

/-- The normalization of a directive never changes which symbol it is
attached to. -/
lemma finalizeItem_key {n : ℕ} {k : SymKey} {v : PyVal} {p : SymKey × PyVal}
    (h : finalizeItem n k v = some p) : p.1 = k := by
  unfold finalizeItem at h
  by_cases h1 : v = PyVal.pstr "symbols"
  · rw [if_pos h1] at h; cases h
  · rw [if_neg h1] at h
    by_cases h2 : v = PyVal.pnone
    · rw [if_pos h2] at h
      cases hk : k.kind <;> rw [hk] at h <;> dsimp at h <;>
        (injection h with h3; subst h3; rfl)
    · rw [if_neg h2] at h
      cases v with
      | ptup items =>
          dsimp at h
          split_ifs at h <;> (injection h with h3; subst h3; rfl)
      | pstr s => injection h with h3; subst h3; rfl
      | pnone => exact absurd rfl h2
      | pnum q => injection h with h3; subst h3; rfl

/-- A key whose directive is the string symbols is removed from the
symbol_values dictionary by the normalization loop. -/
lemma finalize_not_mem_of_symbols {n : ℕ} {sv : List (SymKey × PyVal)} {k : SymKey}
    (hnodup : (sv.map Prod.fst).Nodup)
    (hmem : (k, PyVal.pstr "symbols") ∈ sv) :
    k ∉ (finalizeValues n sv).map Prod.fst := by
  intro hk
  obtain ⟨p, hp, hpk⟩ := List.mem_map.mp hk
  obtain ⟨kv, hkvmem, hkv⟩ := List.mem_filterMap.mp hp
  have hkey : p.1 = kv.1 := finalizeItem_key hkv
  have hkv2 : kv = (k, PyVal.pstr "symbols") :=
    eq_of_mem_of_nodup_keys hnodup hkvmem hmem (by rw [← hkey, hpk])
  rw [hkv2] at hkv
  simp [finalizeItem] at hkv

/-- On success, the final contents of the callers symbol_values dictionary
are the normalized directives. -/
lemma sub_symbols_ok_snd {self : BaseForms} {func : Expr}
    {sv : List (SymKey × PyVal)} {sd : Option (List (String × SymKey))}
    {res : Expr × List (SymKey × PyVal)}
    (h : sub_symbols self func sv sd = .ok res) :
    res.2 = finalizeValues self.num_inputs sv := by
  unfold sub_symbols at h
  dsimp only at h
  split at h
  · exact Except.noConfusion h
  · cases hp : pysubs (finalizeValues self.num_inputs sv) func with
    | error e =>
        rw [hp] at h
        exact Except.noConfusion h
    | ok e =>
        rw [hp] at h
        injection h with h3
        rw [← h3]

/-! ### Concrete scenarios exercised by the claims -/

/-- Linear two-good utility configuration: additive form with coefficients
(3, 1), exponents (1, 1), constant 0 and symbolic dependent variable U. -/
def c1ObjectiveBase : BaseForms :=
  { num_inputs := 2, coeff_values := .ptup [.tnum 3, .tnum 1],
    exponent_values := .ptup [.tnum 1, .tnum 1], constant_value := .pnum 0,
    dependent_name := "U" }

/-- Numeric two-good budget configuration: additive form with prices (1, 2),
neutral exponents, constant 0 and income value 100 for the dependent
variable M. -/
def c1ConstraintBase : BaseForms :=
  { num_inputs := 2, coeff_name := "p", coeff_values := .ptup [.tnum 1, .tnum 2],
    exponent_values := .pnone, dependent_name := "M", dependent_value := .pnum 100,
    constant_value := .pnum 0 }

/-- The Form produced for c1ObjectiveBase: function 3*x[0] + x[1] - U. -/
def c1Objective : Form :=
  { toBaseForms := c1ObjectiveBase,
    function := .add (.add (.mul (.num 3) (.idx "x" 0)) (.idx "x" 1))
      (.mul (.num (-1)) (.sym "U")) }

/-- The Form produced for c1ConstraintBase: function x[0] + 2*x[1] - 100. -/
def c1Constraint : Form :=
  { toBaseForms := c1ConstraintBase,
    function := .add (.add (.idx "x" 0) (.mul (.num 2) (.idx "x" 1)))
      (.num (-100)) }

/-- The objective solved for U in the scenario above, exactly as the
embedded single-equation solver produces it. -/
def c1o : Expr :=
  .mul (.num (-1)) (.mul (.num (-1))
    (.add (.mul (.num 3) (.idx "x" 0)) (.idx "x" 1)))

/-- Non-linear (Cobb-Douglas style) utility configuration: multiplicative
form with coefficients (2, 3), exponents (1, 2), constant 0 and symbolic
dependent variable U. -/
def c4ObjectiveBase : BaseForms :=
  { num_inputs := 2, coeff_values := .ptup [.tnum 2, .tnum 3],
    exponent_values := .ptup [.tnum 1, .tnum 2], constant_value := .pnum 0,
    dependent_name := "U" }

/-- The Form produced for c4ObjectiveBase: function 2*x[0]*3*x[1]**2 - U. -/
def c4Objective : Form :=
  { toBaseForms := c4ObjectiveBase,
    function := .add (.mul (.mul (.num 2) (.idx "x" 0))
        (.mul (.num 3) (.pow (.idx "x" 1) (.num 2))))
      (.mul (.num (-1)) (.sym "U")) }

/-- The objective of c4Objective solved for U, exactly as the embedded
single-equation solver produces it. -/
def c4o : Expr :=
  .mul (.num (-1)) (.mul (.num (-1))
    (.mul (.mul (.num 2) (.idx "x" 0)) (.mul (.num 3) (.pow (.idx "x" 1) (.num 2)))))

/-- A registry configuration with the default names of Input_Constraint
(gamma, rho, M, C) and its default singular directive string symbol. -/
def inputConstraintBase : BaseForms :=
  { num_inputs := 2, coeff_name := "gamma", coeff_values := .pstr "symbol",
    exponent_name := "rho", exponent_values := .pstr "symbol",
    dependent_name := "M", dependent_value := .pstr "symbol",
    constant_value := .pstr "symbol" }

/-! ### Claim theorems -/

/-- C2: is_linear(func, quasi=False) returns True if and only if the second
own/cross partial derivatives of func.function with respect to every pair of
inputs vanish for all pairs; the check collects a flag for every variable
pair and conjoins them all, rather than returning after only the first
pair. -/
theorem claim_C2_is_linear_all_pairs (f : Form) :
    is_linear f = true ↔
      ∀ i j : Fin f.num_inputs,
        diffE (diffE f.function (.idx f.input_name i)) (.idx f.input_name j) = .num 0 := by
  unfold is_linear
  dsimp only
  rw [if_pos rfl, List.all_eq_true]
  constructor
  · intro h i j
    have hv1 : Expr.idx f.input_name i ∈
        (List.range f.num_inputs).map (fun k => Expr.idx f.input_name k) :=
      List.mem_map.mpr ⟨i, List.mem_range.mpr i.isLt, rfl⟩
    have hv2 : Expr.idx f.input_name j ∈
        (List.range f.num_inputs).map (fun k => Expr.idx f.input_name k) :=
      List.mem_map.mpr ⟨j, List.mem_range.mpr j.isLt, rfl⟩
    exact beq_iff_eq.mp
      (h _ (List.mem_flatMap.mpr ⟨_, hv1, List.mem_map.mpr ⟨_, hv2, rfl⟩⟩))
  · intro h b hb
    obtain ⟨p, hp, hb2⟩ := List.mem_flatMap.mp hb
    obtain ⟨i, hi, rfl⟩ := List.mem_map.mp hp
    obtain ⟨c, hc, rfl⟩ := List.mem_map.mp hb2
    obtain ⟨j, hj, rfl⟩ := List.mem_map.mp hc
    exact beq_iff_eq.mpr (h ⟨i, List.mem_range.mp hi⟩ ⟨j, List.mem_range.mp hj⟩)

/-- C5: whenever the directive mapping contains at least one key that is not
a member of the registry symbol set, sub_symbols raises the unknown-symbol
Exception before performing any substitution, so no partially substituted
expression is produced. -/
theorem claim_C5_validates_before_substitution (f : BaseForms) (func : Expr)
    (sv : List (SymKey × PyVal)) (sd : Option (List (String × SymKey))) (k : SymKey)
    (hk : k ∈ sv.map Prod.fst)
    (hmiss : ∀ r ∈ sd.getD f.symbolDict, r.2 ≠ k) :
    sub_symbols f func sv sd =
      .error (.exception "Some symbols missing from symbol_dict.") := by
  unfold sub_symbols
  dsimp only
  have hcond : (sv.all fun kv =>
      (sd.getD f.symbolDict).any fun r => decide (r.2 = kv.1)) = false := by
    obtain ⟨kv, hkv, hfst⟩ := List.mem_map.mp hk
    refine List.all_eq_false.mpr ⟨kv, hkv, ?_⟩
    simp only [List.any_eq_true, decide_eq_true_eq, not_exists, not_and]
    intro r hr
    rw [hfst]
    exact hmiss r hr
  rw [hcond]
  simp

/-- Witness for C5 at a concrete input: a directive for a symbol Z that is
not in the default registry fails with the unknown-symbol Exception. -/
theorem claim_C5_witness :
    sub_symbols { num_inputs := 2 } (.sym "C")
        [(⟨SymKind.scalar, "Z"⟩, PyVal.pnum 5)] none
      = .error (.exception "Some symbols missing from symbol_dict.") :=
  claim_C5_validates_before_substitution { num_inputs := 2 } (.sym "C")
    [(⟨SymKind.scalar, "Z"⟩, PyVal.pnum 5)] none ⟨SymKind.scalar, "Z"⟩
    (by with_unfolding_all decide) (by with_unfolding_all decide)

/-- C6 counterexample: sub_symbols does mutate the symbol_values mapping
passed by the caller.  Calling it with the single directive (C, "symbols")
succeeds, yet afterwards the callers dictionary is empty: the key C has been
popped from it, so the mapping is not left equal to its input state. -/
theorem claim_C6_counterexample :
    sub_symbols { num_inputs := 2 } (.sym "C")
        [(⟨SymKind.scalar, "C"⟩, PyVal.pstr "symbols")] none
      = .ok (.sym "C", [])
    ∧ ([] : List (SymKey × PyVal))
        ≠ [(⟨SymKind.scalar, "C"⟩, PyVal.pstr "symbols")] := by
  exact ⟨by with_unfolding_all decide, by with_unfolding_all decide⟩

/-- C6 amended: sub_symbols mutates neither the registry nor the input
expression and is deterministic, but it does mutate the callers
symbol_values mapping in place: on success, every key whose directive is the
string symbols has been removed from that mapping. -/
theorem claim_C6_amended (f : BaseForms) (func : Expr)
    (sv : List (SymKey × PyVal)) (sd : Option (List (String × SymKey)))
    (res : Expr × List (SymKey × PyVal)) (k : SymKey)
    (hnodup : (sv.map Prod.fst).Nodup)
    (hok : sub_symbols f func sv sd = .ok res)
    (hmem : (k, PyVal.pstr "symbols") ∈ sv) :
    k ∉ res.2.map Prod.fst := by
  rw [sub_symbols_ok_snd hok]
  exact finalize_not_mem_of_symbols hnodup hmem

/-- Witness for the amended C6 at a concrete input: after the successful
call of the counterexample the key C is gone from the callers mapping. -/
theorem claim_C6_witness :
    (⟨SymKind.scalar, "C"⟩ : SymKey) ∉ ((.sym "C", ([] : List (SymKey × PyVal))) :
      Expr × List (SymKey × PyVal)).2.map Prod.fst :=
  claim_C6_amended { num_inputs := 2 } (.sym "C")
    [(⟨SymKind.scalar, "C"⟩, PyVal.pstr "symbols")] none
    (.sym "C", []) ⟨SymKind.scalar, "C"⟩ (by with_unfolding_all decide) (by with_unfolding_all decide) (by with_unfolding_all decide)

/-- C7: with num_inputs = 0 and the default symbolic directives, additive()
returns exactly the expression C - Y (the empty indexed sum evaluates to 0
and is dropped) and multiplicative() returns exactly C - Y + 1 (the empty
indexed product evaluates to 1); in the embedding C - Y is
add C ((-1) * Y) and C - Y + 1 is add (add 1 C) ((-1) * Y), the trees SymPy
builds for these expressions. -/
theorem claim_C7_zero_inputs :
    (do
      let b ← BaseForms_init 0
      b.additive : Except PyExn (Expr × List (String × SymKey)))
      = .ok (.add (.sym "C") (.mul (.num (-1)) (.sym "Y")),
          [("constant", ⟨SymKind.scalar, "C"⟩), ("dependent", ⟨SymKind.scalar, "Y"⟩),
           ("i", ⟨SymKind.indexVar, "i"⟩), ("coefficient", ⟨SymKind.indexedBase, "beta"⟩),
           ("exponent", ⟨SymKind.indexedBase, "alpha"⟩),
           ("inputs", ⟨SymKind.indexedBase, "x"⟩)])
    ∧ (do
      let b ← BaseForms_init 0
      b.multiplicative : Except PyExn (Expr × List (String × SymKey)))
      = .ok (.add (.add (.num 1) (.sym "C")) (.mul (.num (-1)) (.sym "Y")),
          [("constant", ⟨SymKind.scalar, "C"⟩), ("dependent", ⟨SymKind.scalar, "Y"⟩),
           ("i", ⟨SymKind.indexVar, "i"⟩), ("coefficient", ⟨SymKind.indexedBase, "beta"⟩),
           ("exponent", ⟨SymKind.indexedBase, "alpha"⟩),
           ("inputs", ⟨SymKind.indexedBase, "x"⟩)]) := by
  exact ⟨by with_unfolding_all decide, by with_unfolding_all decide⟩

/-- C9 counterexample: constructing an Input_Constraint with num_inputs = -1
does not raise AttributeError; the parent constructor raises the
negative-inputs Exception first, so the claim fails for this argument
combination. -/
theorem claim_C9_counterexample :
    Input_Constraint_init (-1) = .error (.exception "Negative inputs passed.")
    ∧ (PyExn.exception "Negative inputs passed.").isAttributeError = false := by
  exact ⟨by with_unfolding_all decide, by with_unfolding_all decide⟩

/-- C9 amended: constructing an Input_Constraint never succeeds; with
num_inputs below 0 the parent constructor raises the negative-inputs
Exception, and with every other argument combination the initializer raises
AttributeError because self.polynomial_combination is not defined anywhere
in the class hierarchy. -/
theorem claim_C9_amended (num_inputs : ℤ) (input_name coeff_name : String)
    (coeff_values : PyVal) (exponent_name : String) (exponent_values : PyVal)
    (dependent_name : String) (dependent_value : PyVal)
    (constant_name : String) (constant_value : PyVal) :
    Input_Constraint_init num_inputs input_name coeff_name coeff_values
        exponent_name exponent_values dependent_name dependent_value
        constant_name constant_value
      = .error (if num_inputs < 0 then PyExn.exception "Negative inputs passed."
                else PyExn.attributeError "polynomial_combination") := by
  unfold Input_Constraint_init BaseForms_init
  by_cases h : num_inputs < 0
  · rw [if_pos h, if_pos h]
    rfl
  · rw [if_neg h, if_neg h]
    rfl

/-- C10: in sub_symbols only the exact string symbols is the leave-symbolic
no-op directive (the key is dropped and the symbol stays free), while any
other string value, in particular the singular string symbol that
Input_Constraint uses as its default directive, is passed through to the
substitution: it is sympified into a symbol of that name, replacing the
registry symbol, which therefore does not remain free in the result. -/
theorem claim_C10_symbols_versus_symbol (f : BaseForms) (name s : String)
    (hreg : (⟨SymKind.scalar, name⟩ : SymKey) ∈ f.symbolDict.map Prod.snd)
    (hs : s ≠ "symbols") (hsn : s ≠ name) :
    sub_symbols f (.sym name) [(⟨SymKind.scalar, name⟩, PyVal.pstr "symbols")] none
        = .ok (.sym name, [])
    ∧ sub_symbols f (.sym name) [(⟨SymKind.scalar, name⟩, PyVal.pstr s)] none
        = .ok (.sym s, [(⟨SymKind.scalar, name⟩, PyVal.pstr s)])
    ∧ occursE (.sym name) (.sym s) = false := by
  have hcond : ∀ v : PyVal,
      ([(⟨SymKind.scalar, name⟩, v)].all fun kv =>
        f.symbolDict.any fun r => decide (r.2 = kv.1)) = true := by
    intro v
    simp only [List.all_cons, List.all_nil, Bool.and_true, List.any_eq_true,
      decide_eq_true_eq]
    obtain ⟨r, hr, hr2⟩ := List.mem_map.mp hreg
    exact ⟨r, hr, hr2⟩
  have h3 : occursE (.sym name) (.sym s) = false := by
    simp only [occursE, Expr.sym.injEq, decide_eq_false_iff_not]
    exact fun hcon => hsn hcon.symm
  refine ⟨?_, ?_, h3⟩
  · unfold sub_symbols
    dsimp only
    rw [Option.getD_none, hcond, if_neg (by simp)]
    have hfin : finalizeValues f.num_inputs
        [(⟨SymKind.scalar, name⟩, PyVal.pstr "symbols")] = [] := by
      simp [finalizeValues, finalizeItem]
    rw [hfin]
    simp only [pysubs, lookupVal]
    rfl
  · unfold sub_symbols
    dsimp only
    rw [Option.getD_none, hcond, if_neg (by simp)]
    have hfin : finalizeValues f.num_inputs
        [(⟨SymKind.scalar, name⟩, PyVal.pstr s)]
        = [(⟨SymKind.scalar, name⟩, PyVal.pstr s)] := by
      simp [finalizeValues, finalizeItem, hs]
    rw [hfin]
    simp only [pysubs, lookupVal]
    rw [List.find?_cons_of_pos _ (by simp)]
    rfl

/-- Witness for C10 at the Input_Constraint defaults: the registry of
Input_Constraint holds the scalar M, the singular directive string symbol is
passed through and replaces M, and the plural string symbols leaves M
free. -/
theorem claim_C10_witness :
    sub_symbols inputConstraintBase (.sym "M")
        [(⟨SymKind.scalar, "M"⟩, PyVal.pstr "symbols")] none
        = .ok (.sym "M", [])
    ∧ sub_symbols inputConstraintBase (.sym "M")
        [(⟨SymKind.scalar, "M"⟩, PyVal.pstr "symbol")] none
        = .ok (.sym "symbol", [(⟨SymKind.scalar, "M"⟩, PyVal.pstr "symbol")])
    ∧ occursE (.sym "M") (.sym "symbol") = false :=
  claim_C10_symbols_versus_symbol inputConstraintBase "M" "symbol"
    (by with_unfolding_all decide) (by with_unfolding_all decide) (by with_unfolding_all decide)

/-- C1 amended: for every linear objective whose per-input utility-per-dollar
values all solve to concrete numbers, lagrangian assigns, to the single input
with the strictly highest utility-per-dollar, the constraint value DIVIDED BY
THAT INPUTS OWN SYMBOL (the code computes dependent_value / var, dividing by
the input symbol where its comment says price), and exactly 0 to every other
recorded input. -/
theorem claim_C1_amended (sysSolve : List (Expr × Expr) → List Expr → SysOutcome)
    (objective constraint : Form) (o : Expr) (rest : List Expr)
    (w : Expr × Expr) (numer : Expr)
    (hsolve : solveLinFor objective.function (.sym objective.dependent_name) = o :: rest)
    (hlin : is_linear objective = true)
    (hnum : (updList o objective constraint).all (fun p => p.2.isNumber) = true)
    (hw : w ∈ updList o objective constraint)
    (hstrict : ∀ p ∈ updList o objective constraint, p ≠ w → numVal p.2 < numVal w.2)
    (hnumer : dependentNumerator constraint = .ok numer) :
    lagrangian sysSolve objective constraint =
      .ok (some ((updList o objective constraint).map (fun p =>
            (p.1, if p.1 = w.1 then AllocValue.expr (divS numer p.1)
                  else AllocValue.expr (.num 0)))),
           [linearNumericMsg]) := by
  unfold lagrangian
  rw [hsolve]
  dsimp only
  rw [pure_bind]
  rw [hlin, if_pos rfl, hnum, if_pos rfl, maxByVal_eq hw hstrict]
  dsimp only
  rw [hnumer]
  rfl

/-- C1 counterexample: in a concrete 2-good linear scenario built through the
additive constructor (utility 3*x[0] + x[1], prices (1, 2), income 100) the
linear branch is taken and all utility-per-dollar values are numbers, yet the
allocation stores 100 / x[0] for the winning good, not the constraint value
100 the claim asserts. -/
theorem claim_C1_counterexample :
    mkFormAdditive c1ObjectiveBase = .ok c1Objective
    ∧ mkFormAdditive c1ConstraintBase = .ok c1Constraint
    ∧ lagrangian (fun _ _ => .notImplemented "") c1Objective c1Constraint
        = .ok (some [(.idx "x" 0, .expr (.div (.num 100) (.idx "x" 0))),
                     (.idx "x" 1, .expr (.num 0))], [linearNumericMsg])
    ∧ AllocValue.expr (.div (.num 100) (.idx "x" 0)) ≠ AllocValue.expr (.num 100) := by
  exact ⟨by with_unfolding_all decide, by with_unfolding_all decide, by with_unfolding_all decide, by with_unfolding_all decide⟩

/-- Witness for the amended C1 at the concrete 2-good scenario. -/
theorem claim_C1_witness :
    mkFormAdditive c1ObjectiveBase = .ok c1Objective
    ∧ lagrangian (fun _ _ => .notImplemented "") c1Objective c1Constraint =
        .ok (some ((updList c1o c1Objective c1Constraint).map (fun p =>
              (p.1, if p.1 = (Expr.idx "x" 0, Expr.num 3).1
                    then AllocValue.expr (divS (.num 100) p.1)
                    else AllocValue.expr (.num 0)))),
             [linearNumericMsg]) :=
  ⟨by with_unfolding_all decide,
   claim_C1_amended (fun _ _ => .notImplemented "") c1Objective c1Constraint c1o []
     (Expr.idx "x" 0, Expr.num 3) (.num 100) (by with_unfolding_all decide) (by with_unfolding_all decide) (by with_unfolding_all decide)
     (by with_unfolding_all decide) (by with_unfolding_all decide) (by with_unfolding_all decide)⟩

/-- C3 amended: on a successful call in the linear branch the allocation keys
are exactly the inputs whose first-order condition determined a unique
utility-per-dollar value; the multiplier lambda is never among the keys, and
every key is one of the input symbols. -/
theorem claim_C3_amended (sysSolve : List (Expr × Expr) → List Expr → SysOutcome)
    (objective constraint : Form) (o : Expr) (rest : List Expr) (numer : Expr)
    (hsolve : solveLinFor objective.function (.sym objective.dependent_name) = o :: rest)
    (hlin : is_linear objective = true)
    (ho : occursE lambdaSym o = false)
    (hB : occursE lambdaSym constraint.function = false)
    (hne : updList o objective constraint ≠ [])
    (hnumer : dependentNumerator constraint = .ok numer) :
    (lagrangian sysSolve objective constraint).map
        (fun r => r.1.map (fun l => l.map Prod.fst))
      = .ok (some ((updList o objective constraint).map Prod.fst))
    ∧ lambdaSym ∉ (updList o objective constraint).map Prod.fst
    ∧ ∀ v ∈ (updList o objective constraint).map Prod.fst,
        v ∈ (List.range objective.num_inputs).map
          (fun i => Expr.idx objective.input_name i) := by
  have hnl := @lambda_not_mem_updList o objective constraint ho hB
  refine ⟨?_, hnl, ?_⟩
  · unfold lagrangian
    rw [hsolve]
    dsimp only
    rw [pure_bind]
    rw [hlin, if_pos rfl]
    by_cases hall : ((updList o objective constraint).all fun p => p.2.isNumber) = true
    · rw [hall, if_pos rfl]
      obtain ⟨m, hm⟩ := maxByVal_isSome hne
      rw [hm]
      dsimp only
      rw [hnumer]
      dsimp only [Except.map]
      simp [List.map_map, Function.comp]
    · rw [Bool.not_eq_true] at hall
      rw [hall, if_neg (by simp)]
      simp [pure, Except.pure, Except.map, List.map_map, Function.comp]
  · intro v hv
    obtain ⟨p, hp, rfl⟩ := List.mem_map.mp hv
    have hvars := (updList_mem hp).1
    unfold lagrangeVars at hvars
    rcases List.mem_append.mp hvars with h1 | h1
    · exact h1
    · exfalso
      apply hnl
      simp at h1
      exact h1 ▸ List.mem_map_of_mem Prod.fst hp

/-- C3 counterexample: a successful lagrangian call (the concrete linear
scenario of C1) whose returned allocation does not contain the multiplier
lambda as a key, contradicting the claimed postcondition. -/
theorem claim_C3_counterexample :
    lagrangian (fun _ _ => .notImplemented "") c1Objective c1Constraint
      = .ok (some [(.idx "x" 0, .expr (.div (.num 100) (.idx "x" 0))),
                   (.idx "x" 1, .expr (.num 0))], [linearNumericMsg])
    ∧ lambdaSym ∉ ([((Expr.idx "x" 0),
          AllocValue.expr (.div (.num 100) (.idx "x" 0))),
        ((Expr.idx "x" 1), AllocValue.expr (.num 0))]).map Prod.fst := by
  exact ⟨by with_unfolding_all decide, by with_unfolding_all decide⟩

/-- Witness for the amended C3 at the concrete 2-good scenario. -/
theorem claim_C3_witness :
    ((lagrangian (fun _ _ => .notImplemented "") c1Objective c1Constraint).map
        (fun r => r.1.map (fun l => l.map Prod.fst))
      = .ok (some ((updList c1o c1Objective c1Constraint).map Prod.fst)))
    ∧ lambdaSym ∉ (updList c1o c1Objective c1Constraint).map Prod.fst
    ∧ ∀ v ∈ (updList c1o c1Objective c1Constraint).map Prod.fst,
        v ∈ (List.range c1Objective.num_inputs).map
          (fun i => Expr.idx c1Objective.input_name i) :=
  claim_C3_amended (fun _ _ => .notImplemented "") c1Objective c1Constraint c1o []
    (.num 100) (by with_unfolding_all decide) (by with_unfolding_all decide) (by with_unfolding_all decide) (by with_unfolding_all decide) (by with_unfolding_all decide) (by with_unfolding_all decide)

/-- C4: when the objective is not linear and the external system solver
raises NotImplementedError on the first-order-condition system, lagrangian
catches it, prints the error message followed by the solution-too-complex
message, and returns None: no exception propagates and no allocation is
produced. -/
theorem claim_C4_too_complex (sysSolve : List (Expr × Expr) → List Expr → SysOutcome)
    (objective constraint : Form) (o : Expr) (rest : List Expr) (msg : String)
    (hsolve : solveLinFor objective.function (.sym objective.dependent_name) = o :: rest)
    (hlin : is_linear objective = false)
    (hsys : sysSolve ((lagrangeVars objective).map
          (fun v => (v, diffE (lagrangianL o constraint) v)))
        (lagrangeVars objective) = .notImplemented msg) :
    lagrangian sysSolve objective constraint = .ok (none, [msg, tooComplexMsg]) := by
  unfold lagrangian
  rw [hsolve]
  dsimp only
  rw [pure_bind]
  rw [hlin, if_neg (by simp), hsys]
  rfl

/-- Witness for C4: a concrete Cobb-Douglas style objective built through the
multiplicative constructor is not linear, and with a solver that reports
NotImplementedError the call returns None together with the two messages. -/
theorem claim_C4_witness :
    mkFormMultiplicative c4ObjectiveBase = .ok c4Objective
    ∧ lagrangian (fun _ _ => SysOutcome.notImplemented "no closed form")
        c4Objective c1Constraint
      = .ok (none, ["no closed form", tooComplexMsg]) :=
  ⟨by with_unfolding_all decide,
   claim_C4_too_complex (fun _ _ => SysOutcome.notImplemented "no closed form")
     c4Objective c1Constraint c4o [] "no closed form"
     (by with_unfolding_all decide) (by with_unfolding_all decide) (by with_unfolding_all decide)⟩

/-- C8: the multiplicative form over 2 inputs named x with coefficients
(2, 3), exponents (1, 2), constant named c and dependent value 1 yields the
expression c + 6*x[0]*x[1]**2 - 1: structurally the embedded construction
returns the tree (2*x[0])*(3*x[1]**2) + c + (-1), and its evaluation equals
c + 6*x[0]*x[1]**2 - 1 under every assignment. -/
theorem claim_C8_multiplicative_roundtrip :
    ((do
        let b ← BaseForms_init 2 "x" "a" (.ptup [.tnum 2, .tnum 3]) "b"
          (.ptup [.tnum 1, .tnum 2]) "y" (.pnum 1) "c" (.pstr "symbols")
        b.multiplicative : Except PyExn (Expr × List (String × SymKey))).map Prod.fst)
      = .ok (.add (.add (.mul (.mul (.num 2) (.idx "x" 0))
            (.mul (.num 3) (.pow (.idx "x" 1) (.num 2)))) (.sym "c")) (.num (-1)))
    ∧ ∀ (σ : String → ℚ) (ξ : String → ℕ → ℚ),
        evalE σ ξ (.add (.add (.mul (.mul (.num 2) (.idx "x" 0))
            (.mul (.num 3) (.pow (.idx "x" 1) (.num 2)))) (.sym "c")) (.num (-1)))
          = σ "c" + 6 * ξ "x" 0 * ξ "x" 1 ^ 2 - 1 := by
  constructor
  · with_unfolding_all decide
  · intro σ ξ
    have h2 : qpowE (ξ "x" 1) 2 = ξ "x" 1 ^ 2 := by
      unfold qpowE
      rw [if_pos (by with_unfolding_all decide), if_pos (by with_unfolding_all decide)]
      with_unfolding_all rfl
    simp only [evalE, h2]
    ring

end EconModels
